import Mathlib

/-!
Verification development for the volshell plugin
(`volatility/cli/volshell/shellplugin.py`).

The plugin is embedded shallowly:
* bytes become `List Nat` (each element below 256);
* Python strings become `String`;
* `struct.unpack` with native byte order is modelled little-endian,
  matching the x86 platforms the tool targets;
* each printed line is reproduced as the `String` that `print` would
  emit (arguments joined by single spaces, no trailing newline);
* the mutable session state (`self._current_layer`, `self.config`,
  `sys.ps1`) becomes an explicit `VolshellState` record.
-/

namespace Volshell

/-- One lowercase hexadecimal digit, as produced by Python `%x` formatting. -/
def hexDigit : Nat → Char
  | 0 => '0' | 1 => '1' | 2 => '2' | 3 => '3'
  | 4 => '4' | 5 => '5' | 6 => '6' | 7 => '7'
  | 8 => '8' | 9 => '9' | 10 => 'a' | 11 => 'b'
  | 12 => 'c' | 13 => 'd' | 14 => 'e' | _ => 'f'

/-- Digits of `n` in base 16, most significant first; `[]` for `0`.
The first argument is fuel bounding the recursion depth (`n` itself
always suffices, see `natToHexCore_length_le`). -/
def natToHexCore : Nat → Nat → List Char
  | 0, _ => []
  | fuel + 1, n =>
    if n = 0 then [] else natToHexCore fuel (n / 16) ++ [hexDigit (n % 16)]

/-- Python `"%x" % n` for a natural number: lowercase hex, no prefix. -/
def natToHex (n : Nat) : String :=
  if n = 0 then "0" else String.mk (natToHexCore n n)

/-- Python `hex(n)` for a natural number. -/
def pyHex (n : Nat) : String :=
  "0x" ++ natToHex n

/-- Python `("{:0" + str(width) + "x}").format(n)`: lowercase hex zero-padded
on the left to at least `width` characters. -/
def zeroPadHex (width n : Nat) : String :=
  String.mk (List.replicate (width - (natToHex n).length) '0') ++ natToHex n

/-- A run of `n` space characters (Python `" " * n`). -/
def spaces (n : Nat) : String :=
  String.mk (List.replicate n ' ')

/-- Python `sep.join(parts)`. -/
def pyJoin (sep : String) : List String → String
  | [] => ""
  | [x] => x
  | x :: y :: rest => x ++ sep ++ pyJoin sep (y :: rest)

/-- Value of one hexadecimal digit character (as `binascii` reads it). -/
def hexVal (c : Char) : Nat :=
  if '0' ≤ c ∧ c ≤ '9' then c.toNat - 48
  else if 'a' ≤ c ∧ c ≤ 'f' then c.toNat - 87
  else if 'A' ≤ c ∧ c ≤ 'F' then c.toNat - 55
  else 0

/-- Python `binascii.unhexlify` on the character list of a hex string: consecutive
digit pairs become bytes. -/
def unhexlify : List Char → List Nat
  | a :: b :: rest => (16 * hexVal a + hexVal b) :: unhexlify rest
  | _ => []

/-- Method `Volshell._ascii_bytes`: the argument is a hex string; each byte of its
`unhexlify` image is shown literally when `32 < x < 127` and as `.`
otherwise. -/
def ascii_bytes (s : String) : String :=
  String.mk ((unhexlify s.data).map (fun x => if 32 < x ∧ x < 127 then Char.ofNat x else '.'))

/-- Little-endian unsigned value of a byte list: `struct.unpack` with a
native-order format character on the x86 platforms the tool targets. -/
def leValue : List Nat → Nat
  | [] => 0
  | b :: bs => b + 256 * leValue bs

/-- Python `struct.calcsize` restricted to the format characters the plugin uses. -/
def calcsize (fmt : String) : Nat :=
  if fmt = "B" then 1
  else if fmt = "H" then 2
  else if fmt = "I" then 4
  else if fmt = "Q" then 8
  else 0

/-- One iteration of the `_display_data` loop, decomposed into the loop
body's local variables. `addr` is the offset *after* the `offset += 16`
line, i.e. the value whose `hex` is printed as the row label. -/
structure DumpRow where
  addr : Nat
  valid_data : List String
  padding_data : List String
  ascii_data : String
  deriving DecidableEq

/-- Body of the `_display_data` while loop for one 16-byte (or shorter final)
chunk `current`, with `w` the chunk size and `addr16` the already-advanced
offset. -/
def makeRow (w : Nat) (showAscii : Bool) (addr16 : Nat) (current : List Nat) : DumpRow :=
  let data_blocks := (List.range (16 / w)).map (fun i => (current.drop (w * i)).take w)
  let data_blocks := data_blocks.filter (fun x => x != [])
  let valid_data := data_blocks.map (fun x => zeroPadHex (2 * w) (leValue x))
  let padding_data := (List.range ((16 - current.length) / w)).map (fun _ => spaces (2 * w))
  let ascii_data :=
    if showAscii then
      let connector := if w < 2 then "" else " "
      pyJoin connector (valid_data.map ascii_bytes)
    else ""
  ⟨addr16, valid_data, padding_data, ascii_data⟩

/-- The `_display_data` while loop: peel 16 bytes per iteration. The fuel
argument bounds the number of consumed bytes (`remaining.length` always
suffices, see `dumpRows`). -/
def dumpRowsCore (w : Nat) (showAscii : Bool) : Nat → Nat → List Nat → List DumpRow
  | 0, _, _ => []
  | _ + 1, _, [] => []
  | fuel + 1, offset, b :: rest =>
    makeRow w showAscii (offset + 16) ((b :: rest).take 16) ::
      dumpRowsCore w showAscii fuel (offset + 16) ((b :: rest).drop 16)

/-- Rows produced by the `_display_data` loop on already-truncated data. -/
def dumpRows (w : Nat) (showAscii : Bool) (offset : Nat) (remaining : List Nat) : List DumpRow :=
  dumpRowsCore w showAscii remaining.length offset remaining

/-- The line `print(hex(offset), "  ", hex_data, "  ", ascii_data)` emits for
one row (`print` separates its arguments with single spaces). -/
def rowString (r : DumpRow) : String :=
  pyHex r.addr ++ " " ++ "  " ++ " " ++ pyJoin " " (r.valid_data ++ r.padding_data)
    ++ " " ++ "  " ++ " " ++ r.ascii_data

/-- Method `Volshell._display_data`: truncate to a multiple of the chunk size, then
emit one line per 16-byte chunk. -/
def display_data (offset : Nat) (data : List Nat) (fmt : String := "B")
    (showAscii : Bool := true) : List String :=
  let chunk_size := calcsize fmt
  let data_length := data.length
  let remaining_data := data.take (data_length - data_length % chunk_size)
  (dumpRows chunk_size showAscii offset remaining_data).map rowString

/-! ### Basic lemmas about the hex rendering -/

lemma hexDigit_ne_space (m : Nat) : hexDigit m ≠ ' ' := by
  unfold hexDigit
  split <;> decide

lemma natToHexCore_ne_space : ∀ fuel n : Nat, ∀ c ∈ natToHexCore fuel n, c ≠ ' ' := by
  intro fuel
  induction fuel with
  | zero => intro n c hc; simp [natToHexCore] at hc
  | succ fuel ih =>
    intro n c hc
    by_cases h : n = 0
    · simp [natToHexCore, h] at hc
    · simp only [natToHexCore, if_neg h, List.mem_append, List.mem_singleton] at hc
      rcases hc with hc | hc
      · exact ih _ c hc
      · rw [hc]; exact hexDigit_ne_space _

lemma pyHex_ne_space (n : Nat) : ∀ c ∈ (pyHex n).data, (c != ' ') = true := by
  intro c hc
  rw [bne_iff_ne]
  unfold pyHex natToHex at hc
  by_cases h : n = 0
  · subst h
    have hdata : (("0x" : String)
        ++ if (0 : Nat) = 0 then "0" else String.mk (natToHexCore 0 0)).data
        = ['0', 'x', '0'] := rfl
    rw [hdata] at hc
    simp only [List.mem_cons, List.not_mem_nil, or_false] at hc
    rcases hc with rfl | rfl | rfl <;> decide
  · rw [if_neg h] at hc
    have hdata : (("0x" : String) ++ String.mk (natToHexCore n n)).data
        = '0' :: 'x' :: natToHexCore n n := rfl
    rw [hdata] at hc
    simp only [List.mem_cons] at hc
    rcases hc with rfl | rfl | hc
    · decide
    · decide
    · exact natToHexCore_ne_space n n c hc

lemma takeWhile_append_space (l1 l2 : List Char)
    (h : ∀ c ∈ l1, (c != ' ') = true) :
    (l1 ++ ' ' :: l2).takeWhile (fun c => c != ' ') = l1 := by
  induction l1 with
  | nil => simp [List.takeWhile_cons]
  | cons a l ih =>
    have ha : (a != ' ') = true := h a (List.mem_cons_self a l)
    simp only [List.cons_append, List.takeWhile_cons, ha, if_true]
    rw [ih (fun c hc => h c (List.mem_cons_of_mem a hc))]

/-! ### Closed form for the `_display_data` loop -/

lemma dumpRowsCore_eq (w : Nat) (a : Bool) : ∀ fuel offset rem, rem.length ≤ fuel →
    dumpRowsCore w a fuel offset rem =
      (List.range ((rem.length + 15) / 16)).map
        (fun i => makeRow w a (offset + 16 * i + 16) ((rem.drop (16 * i)).take 16)) := by
  intro fuel
  induction fuel with
  | zero =>
    intro offset rem hrem
    have : rem = [] := List.eq_nil_of_length_eq_zero (Nat.le_zero.mp hrem)
    subst this
    simp [dumpRowsCore]
  | succ fuel ih =>
    intro offset rem hrem
    cases rem with
    | nil => simp [dumpRowsCore]
    | cons b rest =>
      have hlen : (b :: rest).length = rest.length + 1 := by simp
      have hdrop : ((b :: rest).drop 16).length ≤ fuel := by
        simp only [List.length_drop]
        simp at hrem
        omega
      have hcount : ((b :: rest).length + 15) / 16 = (((b :: rest).drop 16).length + 15) / 16 + 1 := by
        simp only [List.length_drop, hlen]
        omega
      rw [dumpRowsCore, ih (offset + 16) _ hdrop, hcount, List.range_succ_eq_map]
      simp only [List.map_cons, List.map_map, Nat.mul_zero, Nat.add_zero, List.drop_zero]
      congr 1
      apply List.map_congr_left
      intro i _
      simp only [Function.comp_apply, List.drop_drop]
      have h1 : offset + 16 + 16 * i + 16 = offset + 16 * (i + 1) + 16 := by ring
      have h2 : 16 + 16 * i = 16 * (i + 1) := by ring
      rw [h1, h2]

lemma dumpRows_eq (w : Nat) (a : Bool) (offset : Nat) (rem : List Nat) :
    dumpRows w a offset rem =
      (List.range ((rem.length + 15) / 16)).map
        (fun i => makeRow w a (offset + 16 * i + 16) ((rem.drop (16 * i)).take 16)) :=
  dumpRowsCore_eq w a rem.length offset rem (Nat.le_refl _)

lemma dumpRows_length (w : Nat) (a : Bool) (offset : Nat) (rem : List Nat) :
    (dumpRows w a offset rem).length = (rem.length + 15) / 16 := by
  rw [dumpRows_eq]; simp

lemma dumpRows_getElem (w : Nat) (a : Bool) (offset : Nat) (rem : List Nat)
    (i : Nat) (hi : i < (dumpRows w a offset rem).length) :
    (dumpRows w a offset rem)[i] =
      makeRow w a (offset + 16 * i + 16) ((rem.drop (16 * i)).take 16) := by
  have h' : i < (rem.length + 15) / 16 := by rwa [dumpRows_length] at hi
  simp only [dumpRows_eq, List.getElem_map, List.getElem_range]

lemma makeRow_addr (w : Nat) (a : Bool) (addr16 : Nat) (current : List Nat) :
    (makeRow w a addr16 current).addr = addr16 := rfl

/-! ### Claim C1 -/

/-- Claim C1: every line `_display_data` emits is labeled with the row's
starting offset plus 16 — the loop advances `offset` by 16 before printing,
so row `i` of a dump beginning at `offset` is labeled `hex (offset + 16*i + 16)`.
The label is the maximal space-free prefix of the emitted line. -/
theorem dump_label_is_row_start_plus_16 (fmt : String) (offset : Nat) (data : List Nat)
    (showAscii : Bool) (i : Nat)
    (hi : i < (display_data offset data fmt showAscii).length) :
    ((display_data offset data fmt showAscii)[i]).data.takeWhile (fun c => c != ' ')
      = (pyHex (offset + 16 * i + 16)).data := by
  unfold display_data at hi ⊢
  simp only [List.getElem_map, List.length_map] at hi ⊢
  rw [dumpRows_getElem _ _ _ _ i hi, rowString, makeRow_addr]
  have : (pyHex (offset + 16 * i + 16) ++ " " ++ "  " ++ " "
      ++ pyJoin " " ((makeRow (calcsize fmt) showAscii (offset + 16 * i + 16)
            ((List.drop (16 * i) (List.take (data.length - data.length % calcsize fmt) data)).take 16)).valid_data
          ++ (makeRow (calcsize fmt) showAscii (offset + 16 * i + 16)
            ((List.drop (16 * i) (List.take (data.length - data.length % calcsize fmt) data)).take 16)).padding_data)
      ++ " " ++ "  " ++ " "
      ++ (makeRow (calcsize fmt) showAscii (offset + 16 * i + 16)
            ((List.drop (16 * i) (List.take (data.length - data.length % calcsize fmt) data)).take 16)).ascii_data).data
      = (pyHex (offset + 16 * i + 16)).data ++ ' ' ::
        (("  " ++ " "
          ++ pyJoin " " ((makeRow (calcsize fmt) showAscii (offset + 16 * i + 16)
              ((List.drop (16 * i) (List.take (data.length - data.length % calcsize fmt) data)).take 16)).valid_data
            ++ (makeRow (calcsize fmt) showAscii (offset + 16 * i + 16)
              ((List.drop (16 * i) (List.take (data.length - data.length % calcsize fmt) data)).take 16)).padding_data)
          ++ " " ++ "  " ++ " "
          ++ (makeRow (calcsize fmt) showAscii (offset + 16 * i + 16)
              ((List.drop (16 * i) (List.take (data.length - data.length % calcsize fmt) data)).take 16)).ascii_data).data) := by
    simp [String.data_append]
  rw [this, takeWhile_append_space _ _ (pyHex_ne_space _)]

/-- Witness for C1: concrete dump of one byte starting at offset 0; the single
row's label is `0x10`. -/
theorem dump_label_is_row_start_plus_16_witness :
    ((display_data 0 [0] "B" true).get ⟨0, by decide⟩).data.takeWhile (fun c => c != ' ')
      = (pyHex 16).data :=
  dump_label_is_row_start_plus_16 "B" 0 [0] true 0 (by decide)

/-! ### Cell counts and widths of one row -/

lemma filter_map_range {α : Type} (f : Nat → α) (p : α → Bool) (n k : Nat) (hk : k ≤ n)
    (h : ∀ i < n, (p (f i) = true ↔ i < k)) :
    ((List.range n).map f).filter p = (List.range k).map f := by
  have hn : n = k + (n - k) := by omega
  rw [hn, List.range_add, List.map_append, List.filter_append]
  have h1 : ((List.range k).map f).filter p = (List.range k).map f := by
    rw [List.filter_eq_self]
    intro a ha
    simp only [List.mem_map, List.mem_range] at ha
    obtain ⟨i, hik, rfl⟩ := ha
    exact (h i (by omega)).mpr hik
  have h2 : (((List.range (n - k)).map (fun x => k + x)).map f).filter p = [] := by
    rw [List.filter_eq_nil_iff]
    intro a ha
    simp only [List.map_map, List.mem_map, List.mem_range, Function.comp_apply] at ha
    obtain ⟨i, hik, rfl⟩ := ha
    rw [h (k + i) (by omega)]
    omega
  rw [h1, h2, List.append_nil]

lemma makeRow_valid_count (w : Nat) (a : Bool) (addr : Nat) (current : List Nat)
    (hw : 0 < w) (hdvd : w ∣ current.length) (hlen : current.length ≤ 16) :
    (makeRow w a addr current).valid_data.length = current.length / w := by
  have hfilter : ((List.range (16 / w)).map (fun i => (current.drop (w * i)).take w)).filter
        (fun x => x != [])
      = (List.range (current.length / w)).map (fun i => (current.drop (w * i)).take w) := by
    apply filter_map_range _ _ _ _ (Nat.div_le_div_right hlen)
    intro i _
    have key : (((current.drop (w * i)).take w != []) = true) ↔ w * i < current.length := by
      rw [bne_iff_ne, ne_eq, ← List.length_eq_zero, List.length_take, List.length_drop]
      generalize w * i = t
      omega
    rw [key]
    exact (Nat.lt_div_iff_mul_lt hdvd i).symm
  simp only [makeRow, hfilter, List.length_map, List.length_range]

lemma makeRow_padding_length (w : Nat) (a : Bool) (addr : Nat) (current : List Nat) :
    (makeRow w a addr current).padding_data.length = (16 - current.length) / w := by
  simp [makeRow]

lemma div_add_div_sub (w c : Nat) (hw : 0 < w) (hdvd : w ∣ c) (h16 : w ∣ 16) (hle : c ≤ 16) :
    c / w + (16 - c) / w = 16 / w := by
  obtain ⟨q, rfl⟩ := hdvd
  obtain ⟨s, hs⟩ := h16
  rw [hs] at hle ⊢
  rw [Nat.mul_div_cancel_left _ hw, ← Nat.mul_sub, Nat.mul_div_cancel_left _ hw,
    Nat.mul_div_cancel_left _ hw]
  have : q ≤ s := Nat.le_of_mul_le_mul_left hle hw
  omega

lemma leValue_lt : ∀ bs : List Nat, (∀ b ∈ bs, b < 256) → leValue bs < 256 ^ bs.length := by
  intro bs
  induction bs with
  | nil => intro _; simp [leValue]
  | cons b rest ih =>
    intro h
    have hb : b < 256 := h b (List.mem_cons_self _ _)
    have hr := ih (fun x hx => h x (List.mem_cons_of_mem _ hx))
    simp only [leValue, List.length_cons, pow_succ]
    calc b + 256 * leValue rest < 256 * (leValue rest + 1) := by omega
    _ ≤ 256 * 256 ^ rest.length := by
        apply Nat.mul_le_mul_left
        omega
    _ = 256 ^ rest.length * 256 := Nat.mul_comm _ _

lemma natToHexCore_length_le : ∀ fuel n d : Nat, n ≤ fuel → n < 16 ^ d →
    (natToHexCore fuel n).length ≤ d := by
  intro fuel
  induction fuel with
  | zero => intro n d _ _; simp [natToHexCore]
  | succ fuel ih =>
    intro n d hn hd
    by_cases h : n = 0
    · simp [natToHexCore, h]
    · rw [natToHexCore, if_neg h]
      cases d with
      | zero =>
        simp only [pow_zero, Nat.lt_one_iff] at hd
        exact absurd hd h
      | succ d =>
        simp only [List.length_append, List.length_singleton]
        have h1 : n / 16 ≤ fuel := by
          have := Nat.div_lt_self (Nat.pos_of_ne_zero h) (by norm_num : (1 : Nat) < 16)
          omega
        have h2 : n / 16 < 16 ^ d := by
          rw [Nat.div_lt_iff_lt_mul (by norm_num : (0 : Nat) < 16)]
          rw [pow_succ] at hd
          exact hd
        have := ih (n / 16) d h1 h2
        omega

lemma natToHex_length_le (n d : Nat) (hd : 0 < d) (h : n < 16 ^ d) :
    (natToHex n).length ≤ d := by
  unfold natToHex
  by_cases h0 : n = 0
  · rw [if_pos h0]
    exact hd
  · rw [if_neg h0]
    have := natToHexCore_length_le n n d (Nat.le_refl n) h
    simpa using this

lemma zeroPadHex_length (width n : Nat) (h : (natToHex n).length ≤ width) :
    (zeroPadHex width n).length = width := by
  unfold zeroPadHex
  rw [String.length_append]
  have : (String.mk (List.replicate (width - (natToHex n).length) '0')).length
      = width - (natToHex n).length := by simp
  rw [this]
  omega

/-- Every row of `dumpRows` on data whose length is a multiple of `w` has
`16 / w` cells in total, the present cells all `2 * w` characters wide and the
absent ones space runs of the same width. -/
lemma dump_rows_facts (w : Nat) (hw : 0 < w) (hw16 : w ∣ 16) (offset : Nat)
    (trunc : List Nat) (a : Bool) (hbytes : ∀ b ∈ trunc, b < 256)
    (hdvd : w ∣ trunc.length) :
    ∀ r ∈ dumpRows w a offset trunc,
      r.valid_data.length + r.padding_data.length = 16 / w ∧
      (∀ v ∈ r.valid_data, v.length = 2 * w) ∧
      (∀ p ∈ r.padding_data, p = spaces (2 * w)) := by
  rw [dumpRows_eq]
  intro r hr
  simp only [List.mem_map, List.mem_range] at hr
  obtain ⟨i, hi, rfl⟩ := hr
  have hcle : ((trunc.drop (16 * i)).take 16).length ≤ 16 := by
    rw [List.length_take]
    exact min_le_left _ _
  have hcdvd : w ∣ ((trunc.drop (16 * i)).take 16).length := by
    rw [List.length_take, List.length_drop]
    rcases le_total 16 (trunc.length - 16 * i) with h | h
    · rw [min_eq_left h]
      exact hw16
    · rw [min_eq_right h]
      exact Nat.dvd_sub' hdvd (Dvd.dvd.mul_right hw16 i)
  have hcbytes : ∀ b ∈ (trunc.drop (16 * i)).take 16, b < 256 := fun b hb =>
    hbytes b (List.drop_subset _ _ (List.take_subset _ _ hb))
  refine ⟨?_, ?_, ?_⟩
  · rw [makeRow_valid_count w a _ _ hw hcdvd hcle, makeRow_padding_length]
    exact div_add_div_sub w _ hw hcdvd hw16 hcle
  · intro v hv
    simp only [makeRow, List.mem_map, List.mem_filter] at hv
    obtain ⟨x, ⟨hxmem, _⟩, rfl⟩ := hv
    simp only [List.mem_map, List.mem_range] at hxmem
    obtain ⟨j, _, rfl⟩ := hxmem
    apply zeroPadHex_length
    apply natToHex_length_le _ _ (by omega)
    have hxlen : ((((trunc.drop (16 * i)).take 16).drop (w * j)).take w).length ≤ w := by
      rw [List.length_take]
      exact min_le_left _ _
    have hxbytes : ∀ b ∈ (((trunc.drop (16 * i)).take 16).drop (w * j)).take w, b < 256 :=
      fun b hb => hcbytes b (List.drop_subset _ _ (List.take_subset _ _ hb))
    calc leValue ((((trunc.drop (16 * i)).take 16).drop (w * j)).take w)
        < 256 ^ ((((trunc.drop (16 * i)).take 16).drop (w * j)).take w).length :=
          leValue_lt _ hxbytes
    _ ≤ 256 ^ w := Nat.pow_le_pow_right (by norm_num) hxlen
    _ = 16 ^ (2 * w) := by
        rw [pow_mul]
        norm_num
  · intro p hp
    simp only [makeRow, List.mem_map, List.mem_range] at hp
    obtain ⟨_, _, rfl⟩ := hp
    rfl

lemma truncation_fixpoint (w : Nat) (data : List Nat) :
    (data.take (data.length - data.length % w)).take
        ((data.take (data.length - data.length % w)).length
          - (data.take (data.length - data.length % w)).length % w)
      = data.take (data.length - data.length % w) := by
  have hk : data.length - data.length % w = w * (data.length / w) := by
    have := Nat.div_add_mod data.length w
    omega
  have hlen : (data.take (data.length - data.length % w)).length
      = data.length - data.length % w := by
    rw [List.length_take]
    exact min_eq_left (Nat.sub_le _ _)
  have hmod : (data.length - data.length % w) % w = 0 := by
    rw [hk]
    exact Nat.mul_mod_right w _
  rw [hlen, hmod, Nat.sub_zero, List.take_take, min_self]

/-! ### Claim C2 -/

/-- Claim C2: for every buffer and every supported format character,
`_display_data` renders exactly the first `L - (L mod w)` bytes (truncating
again changes nothing), emits `ceil(k / 16)` rows for the `k` kept bytes, and
every row has exactly `16 / w` cells: present cells are `2 * w` hex characters
and absent cells are space runs of the same width. -/
theorem dump_truncation_and_cell_counts (fmt : String) (hfmt : fmt ∈ ["B", "H", "I", "Q"])
    (offset : Nat) (data : List Nat) (a : Bool) (hbytes : ∀ b ∈ data, b < 256) :
    display_data offset data fmt a
        = display_data offset (data.take (data.length - data.length % calcsize fmt)) fmt a ∧
    (dumpRows (calcsize fmt) a offset
        (data.take (data.length - data.length % calcsize fmt))).length
      = ((data.length - data.length % calcsize fmt) + 15) / 16 ∧
    ∀ r ∈ dumpRows (calcsize fmt) a offset
        (data.take (data.length - data.length % calcsize fmt)),
      r.valid_data.length + r.padding_data.length = 16 / calcsize fmt ∧
      (∀ v ∈ r.valid_data, v.length = 2 * calcsize fmt) ∧
      (∀ p ∈ r.padding_data, p = spaces (2 * calcsize fmt)) := by
  have hw : 0 < calcsize fmt := by fin_cases hfmt <;> decide
  have hw16 : calcsize fmt ∣ 16 := by fin_cases hfmt <;> decide
  have hlen : (data.take (data.length - data.length % calcsize fmt)).length
      = data.length - data.length % calcsize fmt := by
    rw [List.length_take]
    exact min_eq_left (Nat.sub_le _ _)
  have hdvd : calcsize fmt ∣ (data.take (data.length - data.length % calcsize fmt)).length := by
    rw [hlen]
    refine ⟨data.length / calcsize fmt, ?_⟩
    have := Nat.div_add_mod data.length (calcsize fmt)
    omega
  refine ⟨?_, ?_, ?_⟩
  · simp only [display_data]
    rw [truncation_fixpoint]
  · rw [dumpRows_length, hlen]
  · apply dump_rows_facts _ hw hw16 _ _ _ ?_ hdvd
    intro b hb
    exact hbytes b (List.take_subset _ _ hb)

/-- Witness for C2: concrete 5-byte dump at width 2 keeps 4 bytes and emits
one row of 8 cells. -/
theorem dump_truncation_and_cell_counts_witness :
    display_data 0 [65, 66, 67, 68, 69] "H" true
        = display_data 0 ([65, 66, 67, 68, 69].take (5 - 5 % calcsize "H")) "H" true ∧
    (dumpRows (calcsize "H") true 0 ([65, 66, 67, 68, 69].take (5 - 5 % calcsize "H"))).length
      = ((5 - 5 % calcsize "H") + 15) / 16 ∧
    ∀ r ∈ dumpRows (calcsize "H") true 0 ([65, 66, 67, 68, 69].take (5 - 5 % calcsize "H")),
      r.valid_data.length + r.padding_data.length = 16 / calcsize "H" ∧
      (∀ v ∈ r.valid_data, v.length = 2 * calcsize "H") ∧
      (∀ p ∈ r.padding_data, p = spaces (2 * calcsize "H")) :=
  dump_truncation_and_cell_counts "H" (by decide) 0 [65, 66, 67, 68, 69] true (by decide)

/-! ### The ASCII panel -/

/-- Fixed-width big-endian base-16 rendering: the low `k` hex digits of `v`,
most significant first. -/
def hexDigitsBE : Nat → Nat → List Char
  | 0, _ => []
  | k + 1, v => hexDigitsBE k (v / 16) ++ [hexDigit (v % 16)]

/-- The low `k` bytes of `v`, most significant first. -/
def beBytes : Nat → Nat → List Nat
  | 0, _ => []
  | k + 1, v => beBytes k (v / 256) ++ [v % 256]

lemma hexDigitsBE_succ (k v : Nat) :
    hexDigitsBE (k + 1) v = hexDigitsBE k (v / 16) ++ [hexDigit (v % 16)] := rfl

lemma beBytes_succ (k v : Nat) :
    beBytes (k + 1) v = beBytes k (v / 256) ++ [v % 256] := rfl

lemma natToHexCore_fuel_eq : ∀ fuel fuel' n : Nat, n ≤ fuel → n ≤ fuel' →
    natToHexCore fuel n = natToHexCore fuel' n := by
  intro fuel
  induction fuel with
  | zero =>
    intro fuel' n hn _
    have h0 : n = 0 := by omega
    subst h0
    cases fuel' <;> simp [natToHexCore]
  | succ fuel ih =>
    intro fuel' n hn hn'
    by_cases h0 : n = 0
    · subst h0
      cases fuel' <;> simp [natToHexCore]
    · have hpos : 0 < n := Nat.pos_of_ne_zero h0
      cases fuel' with
      | zero => omega
      | succ fuel' =>
        simp only [natToHexCore, if_neg h0]
        have hdiv : n / 16 < n := Nat.div_lt_self hpos (by norm_num)
        rw [ih fuel' (n / 16) (by omega) (by omega)]

lemma natToHexCore_self_split (v : Nat) (hv : v ≠ 0) :
    natToHexCore v v = natToHexCore (v / 16) (v / 16) ++ [hexDigit (v % 16)] := by
  obtain ⟨f, rfl⟩ : ∃ f, v = f + 1 := ⟨v - 1, by omega⟩
  have hdiv : (f + 1) / 16 ≤ f := by
    have := Nat.div_lt_self (show 0 < f + 1 by omega) (show 1 < 16 by norm_num)
    omega
  simp only [natToHexCore, if_neg hv]
  rw [natToHexCore_fuel_eq f ((f + 1) / 16) ((f + 1) / 16) hdiv (Nat.le_refl _)]

lemma hexDigitsBE_zero : ∀ k : Nat, hexDigitsBE k 0 = List.replicate k '0' := by
  intro k
  induction k with
  | zero => rfl
  | succ k ih =>
    rw [hexDigitsBE_succ, Nat.zero_div, ih]
    show List.replicate k '0' ++ ['0'] = List.replicate (k + 1) '0'
    rw [← List.replicate_succ']

lemma hexDigitsBE_length : ∀ k v : Nat, (hexDigitsBE k v).length = k := by
  intro k
  induction k with
  | zero => intro v; rfl
  | succ k ih =>
    intro v
    rw [hexDigitsBE_succ, List.length_append, List.length_singleton, ih]

lemma hexDigitsBE_eq : ∀ k v : Nat, v < 16 ^ k →
    hexDigitsBE k v
      = List.replicate (k - (natToHexCore v v).length) '0' ++ natToHexCore v v := by
  intro k
  induction k with
  | zero =>
    intro v hv
    have h0 : v = 0 := by simpa using hv
    subst h0
    rfl
  | succ k ih =>
    intro v hv
    by_cases h0 : v = 0
    · subst h0
      rw [hexDigitsBE_zero]
      simp [natToHexCore]
    · have hvdiv : v / 16 < 16 ^ k := by
        rw [Nat.div_lt_iff_lt_mul (by norm_num : (0 : Nat) < 16)]
        rw [pow_succ] at hv
        exact hv
      rw [hexDigitsBE_succ, ih (v / 16) hvdiv, natToHexCore_self_split v h0,
        List.length_append, List.length_singleton]
      have harith : k + 1 - ((natToHexCore (v / 16) (v / 16)).length + 1)
          = k - (natToHexCore (v / 16) (v / 16)).length := by omega
      rw [harith, List.append_assoc]

/-- For `v < 16^k` with `k` positive, the zero-padded hex string is exactly
the `k` fixed-width big-endian digits of `v`. -/
lemma zeroPadHex_data (k v : Nat) (hk : 0 < k) (hv : v < 16 ^ k) :
    (zeroPadHex k v).data = hexDigitsBE k v := by
  by_cases h0 : v = 0
  · subst h0
    rw [hexDigitsBE_zero]
    unfold zeroPadHex natToHex
    rw [if_pos rfl]
    have h1 : ("0" : String).length = 1 := rfl
    rw [h1]
    show List.replicate (k - 1) '0' ++ ['0'] = List.replicate k '0'
    rw [← List.replicate_succ']
    congr 1
    omega
  · rw [hexDigitsBE_eq k v hv]
    unfold zeroPadHex natToHex
    rw [if_neg h0]
    rfl

lemma unhexlify_append : ∀ l1 l2 : List Char, l1.length % 2 = 0 →
    unhexlify (l1 ++ l2) = unhexlify l1 ++ unhexlify l2
  | [], _, _ => by simp [unhexlify]
  | [_], _, h => by simp at h
  | a :: b :: rest, l2, h => by
    simp only [List.cons_append, unhexlify, List.append_eq]
    rw [unhexlify_append rest l2 (by simp only [List.length_cons] at h; omega)]

lemma unhexlify_pair (a b : Char) :
    unhexlify [a, b] = [16 * hexVal a + hexVal b] := rfl

lemma hexVal_hexDigit (m : Nat) (hm : m < 16) : hexVal (hexDigit m) = m := by
  interval_cases m <;> rfl

lemma unhexlify_hexDigitsBE : ∀ k v : Nat, unhexlify (hexDigitsBE (2 * k) v) = beBytes k v := by
  intro k
  induction k with
  | zero => intro v; rfl
  | succ k ih =>
    intro v
    have h2 : 2 * (k + 1) = 2 * k + 1 + 1 := by ring
    rw [h2, hexDigitsBE_succ, hexDigitsBE_succ, List.append_assoc,
      unhexlify_append _ _ (by rw [hexDigitsBE_length]; omega),
      Nat.div_div_eq_div_mul, show (16 * 16 : Nat) = 256 by norm_num,
      ih (v / 256), List.singleton_append, unhexlify_pair,
      hexVal_hexDigit (v / 16 % 16) (by omega), hexVal_hexDigit (v % 16) (by omega),
      beBytes_succ]
    have harith : 16 * (v / 16 % 16) + v % 16 = v % 256 := by omega
    rw [harith]

lemma beBytes_leValue : ∀ x : List Nat, (∀ b ∈ x, b < 256) →
    beBytes x.length (leValue x) = x.reverse := by
  intro x
  induction x with
  | nil => intro _; rfl
  | cons b bs ih =>
    intro h
    have hb : b < 256 := h b (List.mem_cons_self _ _)
    have hdiv : leValue (b :: bs) / 256 = leValue bs := by
      simp only [leValue]
      omega
    have hmod : leValue (b :: bs) % 256 = b := by
      simp only [leValue]
      omega
    rw [List.length_cons, beBytes_succ, hdiv, hmod, List.reverse_cons,
      ih (fun y hy => h y (List.mem_cons_of_mem _ hy))]

/-- Decoding a cell's zero-padded hex string recovers the cell's bytes in
big-endian value order, i.e. reversed relative to the buffer. -/
lemma unhexlify_zeroPadHex_cell (x : List Nat) (hx : ∀ b ∈ x, b < 256) :
    unhexlify (zeroPadHex (2 * x.length) (leValue x)).data = x.reverse := by
  rcases Nat.eq_zero_or_pos x.length with hlen | hlen
  · have hx0 : x = [] := List.eq_nil_of_length_eq_zero hlen
    subst hx0
    decide
  · have hv : leValue x < 16 ^ (2 * x.length) := by
      calc leValue x < 256 ^ x.length := leValue_lt x hx
      _ = 16 ^ (2 * x.length) := by
          rw [pow_mul]
          norm_num
    rw [zeroPadHex_data _ _ (by omega) hv, unhexlify_hexDigitsBE]
    exact beBytes_leValue x hx

/-- One ASCII-panel cell: one output character per cell byte, literal exactly
for bytes strictly between `0x20` and `0x7F`, in the cell's big-endian hex
order. -/
lemma ascii_bytes_cell (x : List Nat) (hx : ∀ b ∈ x, b < 256) :
    ascii_bytes (zeroPadHex (2 * x.length) (leValue x))
      = String.mk (x.reverse.map (fun c => if 32 < c ∧ c < 127 then Char.ofNat c else '.')) := by
  unfold ascii_bytes
  rw [unhexlify_zeroPadHex_cell x hx]

/-- The present cells of a row are exactly the `w`-byte blocks of the chunk,
rendered in hex, when the chunk length is a multiple of `w`. -/
lemma makeRow_valid_data (w : Nat) (a : Bool) (addr : Nat) (current : List Nat)
    (hw : 0 < w) (hdvd : w ∣ current.length) (hlen : current.length ≤ 16) :
    (makeRow w a addr current).valid_data
      = (List.range (current.length / w)).map
          (fun j => zeroPadHex (2 * w) (leValue ((current.drop (w * j)).take w))) := by
  have hfilter : ((List.range (16 / w)).map (fun i => (current.drop (w * i)).take w)).filter
        (fun x => x != [])
      = (List.range (current.length / w)).map (fun i => (current.drop (w * i)).take w) := by
    apply filter_map_range _ _ _ _ (Nat.div_le_div_right hlen)
    intro i _
    have key : (((current.drop (w * i)).take w != []) = true) ↔ w * i < current.length := by
      rw [bne_iff_ne, ne_eq, ← List.length_eq_zero, List.length_take, List.length_drop]
      generalize w * i = t
      omega
    rw [key]
    exact (Nat.lt_div_iff_mul_lt hdvd i).symm
  simp only [makeRow, hfilter, List.map_map]
  rfl

lemma makeRow_ascii_data (w : Nat) (addr : Nat) (current : List Nat) :
    (makeRow w true addr current).ascii_data
      = pyJoin (if w < 2 then "" else " ")
          ((makeRow w true addr current).valid_data.map ascii_bytes) := rfl

/-- The whole panel of one row at any width: the `w`-byte cells joined by the
width's connector, each cell one character per byte. -/
lemma makeRow_ascii (w : Nat) (addr : Nat) (current : List Nat) (hw : 0 < w)
    (hdvd : w ∣ current.length) (hlen : current.length ≤ 16)
    (hbytes : ∀ b ∈ current, b < 256) :
    (makeRow w true addr current).ascii_data
      = pyJoin (if w < 2 then "" else " ")
          ((List.range (current.length / w)).map
            (fun j => String.mk (((current.drop (w * j)).take w).reverse.map
              (fun c => if 32 < c ∧ c < 127 then Char.ofNat c else '.')))) := by
  rw [makeRow_ascii_data, makeRow_valid_data w true addr current hw hdvd hlen, List.map_map]
  congr 1
  apply List.map_congr_left
  intro j hj
  simp only [Function.comp_apply]
  have hjlt : w * j < current.length := (Nat.lt_div_iff_mul_lt hdvd j).mp (List.mem_range.mp hj)
  have hblen : ((current.drop (w * j)).take w).length = w := by
    rw [List.length_take, List.length_drop]
    have hd2 : w ∣ current.length - w * j := Nat.dvd_sub' hdvd (dvd_mul_right w j)
    have hge : w ≤ current.length - w * j := Nat.le_of_dvd (by omega) hd2
    omega
  have hbbytes : ∀ b ∈ (current.drop (w * j)).take w, b < 256 :=
    fun b hb => hbytes b (List.drop_subset _ _ (List.take_subset _ _ hb))
  have hcell := ascii_bytes_cell ((current.drop (w * j)).take w) hbbytes
  rw [hblen] at hcell
  exact hcell

/-! ### Claim C3 -/

/-- Counterexample for C3: the byte `0x7E` lies outside the open interval
`(0x20, 0x7E)`, so the claim demands `.`, but `_display_data` of the single
byte `0x7E` renders the panel `~`. -/
theorem ascii_panel_tilde_counterexample :
    (dumpRows 1 true 0 [126]).map DumpRow.ascii_data = ["~"] ∧ ("~" : String) ≠ "." := by
  decide

/-- Claim C3 as amended: at every supported element width, every row's ASCII
panel renders its present cells one output character per cell byte — literal
exactly for bytes strictly between `0x20` and `0x7F` (so `0x7E` is shown
literally), `.` otherwise — the characters within a multi-byte cell following
the cell's big-endian hex rendering, cells joined by the width's connector. -/
theorem ascii_panel_threshold_amended (fmt : String) (hfmt : fmt ∈ ["B", "H", "I", "Q"])
    (offset : Nat) (data : List Nat) (hbytes : ∀ b ∈ data, b < 256) (i : Nat)
    (hi : i < (dumpRows (calcsize fmt) true offset
        (data.take (data.length - data.length % calcsize fmt))).length) :
    ((dumpRows (calcsize fmt) true offset
        (data.take (data.length - data.length % calcsize fmt)))[i]).ascii_data
      = pyJoin (if calcsize fmt < 2 then "" else " ")
          ((List.range ((((data.take (data.length - data.length % calcsize fmt)).drop
                (16 * i)).take 16).length / calcsize fmt)).map
            (fun j => String.mk
              ((((((data.take (data.length - data.length % calcsize fmt)).drop
                    (16 * i)).take 16).drop (calcsize fmt * j)).take (calcsize fmt)).reverse.map
                (fun c => if 32 < c ∧ c < 127 then Char.ofNat c else '.')))) := by
  have hw : 0 < calcsize fmt := by fin_cases hfmt <;> decide
  have hw16 : calcsize fmt ∣ 16 := by fin_cases hfmt <;> decide
  have hlen_t : (data.take (data.length - data.length % calcsize fmt)).length
      = data.length - data.length % calcsize fmt := by
    rw [List.length_take]
    exact min_eq_left (Nat.sub_le _ _)
  have hdvd_t : calcsize fmt ∣ (data.take (data.length - data.length % calcsize fmt)).length := by
    rw [hlen_t]
    refine ⟨data.length / calcsize fmt, ?_⟩
    have := Nat.div_add_mod data.length (calcsize fmt)
    omega
  rw [dumpRows_getElem _ _ _ _ i hi]
  have hcle : (((data.take (data.length - data.length % calcsize fmt)).drop
      (16 * i)).take 16).length ≤ 16 := by
    rw [List.length_take]
    exact min_le_left _ _
  have hcdvd : calcsize fmt ∣ (((data.take (data.length - data.length % calcsize fmt)).drop
      (16 * i)).take 16).length := by
    rw [List.length_take, List.length_drop]
    rcases le_total 16 ((data.take (data.length - data.length % calcsize fmt)).length - 16 * i)
      with h | h
    · rw [min_eq_left h]
      exact hw16
    · rw [min_eq_right h]
      exact Nat.dvd_sub' hdvd_t (Dvd.dvd.mul_right hw16 i)
  have hcbytes : ∀ b ∈ ((data.take (data.length - data.length % calcsize fmt)).drop
      (16 * i)).take 16, b < 256 :=
    fun b hb => hbytes b
      (List.take_subset _ _ (List.drop_subset _ _ (List.take_subset _ _ hb)))
  exact makeRow_ascii (calcsize fmt) _ _ hw hcdvd hcle hcbytes

/-- Witness for C3 amended: one 4-byte cell `41 00 00 7e` at width 4 renders
the panel `~..A` — one character per byte, `0x7E` literal. -/
theorem ascii_panel_threshold_amended_witness :
    ((dumpRows (calcsize "I") true 0
        ([65, 0, 0, 126].take ([65, 0, 0, 126].length
          - [65, 0, 0, 126].length % calcsize "I"))).get ⟨0, by decide⟩).ascii_data
      = pyJoin (if calcsize "I" < 2 then "" else " ")
          ((List.range (((([65, 0, 0, 126].take ([65, 0, 0, 126].length
                - [65, 0, 0, 126].length % calcsize "I")).drop
                (16 * 0)).take 16).length / calcsize "I")).map
            (fun j => String.mk
              (((((([65, 0, 0, 126].take ([65, 0, 0, 126].length
                    - [65, 0, 0, 126].length % calcsize "I")).drop
                    (16 * 0)).take 16).drop (calcsize "I" * j)).take (calcsize "I")).reverse.map
                (fun c => if 32 < c ∧ c < 127 then Char.ofNat c else '.')))) :=
  ascii_panel_threshold_amended "I" (by decide) 0 [65, 0, 0, 126] (by decide) 0 (by decide)

/-! ### Claim C4 -/

/-- Counterexample for C4: on `b'\x41\x00\x00\x00' * 4` at element width 4 the
ASCII panel of the single row is `...A ...A ...A ...A`, not `A A A A` — the
panel characters follow each cell's hex string, so the little-endian cell
bytes appear value-order reversed, with `0x00` shown as `.`. -/
theorem example_row_ascii_counterexample :
    (dumpRows 4 true 4096 [65, 0, 0, 0, 65, 0, 0, 0, 65, 0, 0, 0, 65, 0, 0, 0]).map
        DumpRow.ascii_data = ["...A ...A ...A ...A"] ∧
    ("...A ...A ...A ...A" : String) ≠ "A A A A" := by
  decide

/-- Claim C4 as amended: formatting offset `0x1000` with `b'\x41\x00\x00\x00' * 4`
at element width 4 yields exactly one row labeled `0x1010` whose four hex cells
are `00000041` joined by single spaces and whose ASCII panel is
`...A ...A ...A ...A`. -/
theorem example_row_amended :
    display_data 4096 [65, 0, 0, 0, 65, 0, 0, 0, 65, 0, 0, 0, 65, 0, 0, 0] "I" true
      = ["0x1010    00000041 00000041 00000041 00000041    ...A ...A ...A ...A"] ∧
    dumpRows 4 true 4096 [65, 0, 0, 0, 65, 0, 0, 0, 65, 0, 0, 0, 65, 0, 0, 0]
      = [⟨4112, ["00000041", "00000041", "00000041", "00000041"], [],
          "...A ...A ...A ...A"⟩] := by
  decide

/-! ### Session state, layer switching and reads -/

/-- The mutable session state: the configured primary layer name
(`self.config` entry `primary`), the current layer name
(`self._current_layer`) and the interpreter prompt (`sys.ps1`). -/
structure VolshellState where
  primary : String
  current : String
  ps1 : String
  deriving DecidableEq

/-- Python `layer_name or self.current_layer`: `None` and the empty string
are falsy. -/
def pyOr (layer_name : Option String) (current : String) : String :=
  match layer_name with
  | none => current
  | some n => if n = "" then current else n

/-- Method `Volshell.change_layer`: a falsy `layer_name` is replaced by the
configured primary; the result is stored unconditionally and the prompt
updated. -/
def change_layer (s : VolshellState) (layer_name : Option String := none) : VolshellState :=
  let name :=
    match layer_name with
    | none => s.primary
    | some n => if n = "" then s.primary else n
  ⟨s.primary, name, "(" ++ name ++ ") >>> "⟩

/-- Method `Volshell._read_data`: read from the explicitly named layer, falling back
to the current layer. The external layer registry is the function `layers`. -/
def read_data (layers : String → Nat → Nat → List Nat) (s : VolshellState)
    (offset : Nat) (count : Nat := 128) (layer_name : Option String := none) : List Nat :=
  layers (pyOr layer_name s.current) offset count

/-! ### Disassembly dispatch -/

/-- What `isinstance` can report about the target layer: an `intel.Intel32e`
layer, another `intel.Intel` layer (`Intel32e` subclasses `Intel`), or a
layer outside the Intel family. -/
inductive LayerKind where
  | intel32e
  | intelOther
  | nonIntel
  deriving DecidableEq

/-- Python `isinstance(layer, intel.Intel32e)`. -/
def isIntel32e : LayerKind → Bool
  | .intel32e => true
  | _ => false

/-- Python `isinstance(layer, intel.Intel)`: `Intel32e` is a subclass of `Intel`. -/
def isIntel : LayerKind → Bool
  | .intel32e => true
  | .intelOther => true
  | .nonIntel => false

/-- The capstone architecture constants used by the plugin. -/
inductive CsArch where
  | x86
  | arm
  | arm64
  deriving DecidableEq

/-- The capstone mode constants used by the plugin. -/
inductive CsMode where
  | mode32
  | mode64
  | modeArm
  deriving DecidableEq

/-- The `disasm_types` dictionary: architecture name to capstone decoder
configuration; `none` models the `KeyError` of a lookup miss. -/
def disasm_types (a : String) : Option (CsArch × CsMode) :=
  if a = "intel" then some (.x86, .mode32)
  else if a = "intel64" then some (.x86, .mode64)
  else if a = "arm" then some (.arm, .modeArm)
  else if a = "arm64" then some (.arm64, .modeArm)
  else none

/-- Observable outcome of one `disassemble` call (after a successful read):
the capstone-missing notice, a silent no-op, decoding `data` from `offset`
with a chosen decoder, or an uncaught `KeyError` from `disasm_types`. -/
inductive DisasmEffect where
  | capstoneMissingNotice
  | noOutput
  | decodes (arch : CsArch) (mode : CsMode) (data : List Nat) (offset : Nat)
  | keyError (a : String)
  deriving DecidableEq

/-- The call printed the capstone-unavailable notice. -/
def printsNotice : DisasmEffect → Bool
  | .capstoneMissingNotice => true
  | _ => false

/-- The call ran a decoder over the read bytes. -/
def performsDecoding : DisasmEffect → Bool
  | .decodes _ _ _ _ => true
  | _ => false

/-- The call raised an exception (`KeyError` on `disasm_types`). -/
def raisesKeyError : DisasmEffect → Bool
  | .keyError _ => true
  | _ => false

/-- Method `Volshell.disassemble`: read the bytes, then either report the missing
backend, or resolve the architecture — the Intel `isinstance` checks
overwrite the `architecture` argument — and decode when one is known.
`has_capstone` records whether the `import capstone` at module load
succeeded; `kinds` reports each registry layer's class. -/
def disassemble (has_capstone : Bool) (kinds : String → LayerKind)
    (layers : String → Nat → Nat → List Nat) (s : VolshellState)
    (offset : Nat) (count : Nat := 128) (layer_name : Option String := none)
    (architecture : Option String := none) : DisasmEffect :=
  let remaining_data := read_data layers s offset count layer_name
  if has_capstone = false then .capstoneMissingNotice
  else
    let architecture :=
      if isIntel32e (kinds (pyOr layer_name s.current)) then some "intel64"
      else if isIntel (kinds (pyOr layer_name s.current)) then some "intel"
      else architecture
    match architecture with
    | none => .noOutput
    | some a =>
      match disasm_types a with
      | some (ar, m) => .decodes ar m remaining_data offset
      | none => .keyError a

/-- A concrete session state for witnesses and counterexamples. -/
def st0 : VolshellState :=
  ⟨"primary", "primary", "(primary) >>> "⟩

/-- A concrete empty layer registry. -/
def noLayers : String → Nat → Nat → List Nat := fun _ _ _ => []

/-- A registry in which every layer is a 64-bit Intel layer. -/
def allIntel32e : String → LayerKind := fun _ => .intel32e

/-- A registry in which no layer is an Intel layer. -/
def allNonIntel : String → LayerKind := fun _ => .nonIntel

/-! ### Claim C5 -/

/-- Counterexample for C5: with an `Intel32e` target layer, the explicit
override `intel` is ignored — the call decodes in 64-bit mode, not in the
32-bit mode `disasm_types` maps the override to. -/
theorem override_ignored_on_intel_counterexample :
    disassemble true allIntel32e noLayers st0 0 128 none (some "intel")
        = .decodes .x86 .mode64 [] 0 ∧
    disasm_types "intel" = some (.x86, .mode32) ∧
    CsMode.mode64 ≠ CsMode.mode32 := by
  decide

/-- Claim C5 as amended: an explicit architecture override determines the
decoder only when the target layer is not an Intel-family layer; for any
Intel-family layer the mode inferred from the layer wins and the override
argument is ignored entirely. -/
theorem architecture_resolution_amended (kinds : String → LayerKind)
    (layers : String → Nat → Nat → List Nat) (s : VolshellState)
    (offset count : Nat) (layer_name : Option String) (a : String)
    (ar : CsArch) (m : CsMode) :
    (kinds (pyOr layer_name s.current) = .nonIntel → disasm_types a = some (ar, m) →
      disassemble true kinds layers s offset count layer_name (some a)
        = .decodes ar m (read_data layers s offset count layer_name) offset) ∧
    (isIntel (kinds (pyOr layer_name s.current)) = true →
      disassemble true kinds layers s offset count layer_name (some a)
        = disassemble true kinds layers s offset count layer_name none) := by
  constructor
  · intro hk hd
    unfold disassemble
    rw [hk]
    simp [isIntel32e, isIntel, hd]
  · intro hk
    unfold disassemble
    cases hkind : kinds (pyOr layer_name s.current) with
    | intel32e => rfl
    | intelOther => rfl
    | nonIntel =>
      rw [hkind] at hk
      simp [isIntel] at hk

/-- Witness for C5 amended: override `arm` takes effect on a non-Intel layer. -/
theorem architecture_resolution_amended_witness :
    disassemble true allNonIntel noLayers st0 0 128 none (some "arm")
      = .decodes .arm .modeArm (read_data noLayers st0 0 128 none) 0 :=
  (architecture_resolution_amended allNonIntel noLayers st0 0 128 none "arm"
    .arm .modeArm).1 (by decide) (by decide)

/-! ### Claim C6 -/

/-- Counterexample for C6: capstone present, non-Intel layer, no override —
the call is a silent no-op and prints no unavailability notice. -/
theorem silent_noop_counterexample :
    disassemble true allNonIntel noLayers st0 0 128 none none = .noOutput ∧
    printsNotice DisasmEffect.noOutput = false := by
  decide

/-- Claim C6 as amended: with the decoder library present, no override and an
unrecognized layer architecture, the call decodes zero instructions and raises
nothing, but also emits no notice — it is entirely silent. -/
theorem unknown_arch_silent_amended (kinds : String → LayerKind)
    (layers : String → Nat → Nat → List Nat) (s : VolshellState)
    (offset count : Nat) (layer_name : Option String)
    (hk : kinds (pyOr layer_name s.current) = .nonIntel) :
    disassemble true kinds layers s offset count layer_name none = .noOutput ∧
    performsDecoding (disassemble true kinds layers s offset count layer_name none) = false ∧
    raisesKeyError (disassemble true kinds layers s offset count layer_name none) = false ∧
    printsNotice (disassemble true kinds layers s offset count layer_name none) = false := by
  have h : disassemble true kinds layers s offset count layer_name none = .noOutput := by
    unfold disassemble
    rw [hk]
    rfl
  exact ⟨h, by rw [h]; rfl, by rw [h]; rfl, by rw [h]; rfl⟩

/-- Witness for C6 amended at a concrete non-Intel registry. -/
theorem unknown_arch_silent_amended_witness :
    disassemble true allNonIntel noLayers st0 5 7 none none = .noOutput ∧
    performsDecoding (disassemble true allNonIntel noLayers st0 5 7 none none) = false ∧
    raisesKeyError (disassemble true allNonIntel noLayers st0 5 7 none none) = false ∧
    printsNotice (disassemble true allNonIntel noLayers st0 5 7 none none) = false :=
  unknown_arch_silent_amended allNonIntel noLayers st0 5 7 none (by decide)

/-! ### Claim C7 -/

/-- Claim C7: with the capstone library absent, every `disassemble` call whose
read succeeds prints the same unavailability notice and raises nothing,
whatever the offset, count, layer or override arguments. -/
theorem capstone_missing_notice (kinds : String → LayerKind)
    (layers : String → Nat → Nat → List Nat) (s : VolshellState)
    (offset count : Nat) (layer_name architecture : Option String) :
    disassemble false kinds layers s offset count layer_name architecture
        = .capstoneMissingNotice ∧
    printsNotice (disassemble false kinds layers s offset count layer_name architecture)
        = true ∧
    raisesKeyError (disassemble false kinds layers s offset count layer_name architecture)
        = false ∧
    performsDecoding (disassemble false kinds layers s offset count layer_name architecture)
        = false := by
  refine ⟨rfl, rfl, rfl, rfl⟩

/-! ### Claim C8 -/

/-- Claim C8: switching to a (non-empty) layer name makes it the current layer
with no existence check, reads that omit the layer argument then target that
layer, and switching with no name restores the configured primary. -/
theorem change_layer_switch_read_reset (s : VolshellState) (n : String) (hn : n ≠ "")
    (layers : String → Nat → Nat → List Nat) (offset count : Nat) :
    (change_layer s (some n)).current = n ∧
    read_data layers (change_layer s (some n)) offset count none = layers n offset count ∧
    (change_layer s none).current = s.primary := by
  refine ⟨?_, ?_, rfl⟩
  · simp [change_layer, hn]
  · simp [read_data, pyOr, change_layer, hn]

/-- Witness for C8: switching to `kernel` and reading. -/
theorem change_layer_switch_read_reset_witness :
    (change_layer st0 (some "kernel")).current = "kernel" ∧
    read_data noLayers (change_layer st0 (some "kernel")) 0 128 none
        = noLayers "kernel" 0 128 ∧
    (change_layer st0 none).current = st0.primary :=
  change_layer_switch_read_reset st0 "kernel" (by decide) noLayers 0 128

/-! ### Claim C10 -/

/-- Claim C10: switching to the empty string behaves exactly like switching
with no name — any falsy name resets to the configured primary — so the empty
string never becomes the current layer this way (as long as the configured
primary is itself non-empty). -/
theorem change_layer_empty_string_reset (s : VolshellState) :
    change_layer s (some "") = change_layer s none ∧
    (change_layer s (some "")).current = s.primary ∧
    (s.primary ≠ "" → (change_layer s (some "")).current ≠ "") := by
  refine ⟨rfl, rfl, fun h => ?_⟩
  simpa [change_layer] using h

/-- Witness for C10: with a non-empty primary, switching to `""` leaves a
non-empty current layer. -/
theorem change_layer_empty_string_reset_witness :
    (change_layer st0 (some "")).current ≠ "" :=
  (change_layer_empty_string_reset st0).2.2 (by decide)

/-! ### The type inspector -/

/-- The first loop of `Volshell.display_type`: running maximum of the member
name lengths (`longest_member = max(len(member), longest_member)`). A member
is `(name, relative offset, type name)`. -/
def longest_member (members : List (String × Nat × String)) : Nat :=
  members.foldl (fun acc m => max m.1.length acc) 0

/-- The first loop of `Volshell.display_type`: running maximum of the
`hex(relative_offset)` string lengths. -/
def longest_offset (members : List (String × Nat × String)) : Nat :=
  members.foldl (fun acc m => max (pyHex m.2.1).length acc) 0

/-- One line of the second `display_type` loop:
`print(" " * (longest_offset - len_offset), hex(relative_offset), "\t\t",
member, " " * (longest_member - len_member), "\t\t", type_name)` with
`print`'s single-space separators. -/
def type_line (lo lm : Nat) (m : String × Nat × String) : String :=
  spaces (lo - (pyHex m.2.1).length) ++ " " ++ pyHex m.2.1 ++ " " ++ "\t\t" ++ " "
    ++ m.1 ++ " " ++ spaces (lm - m.1.length) ++ " " ++ "\t\t" ++ " " ++ m.2.2

/-- Method `Volshell.display_type`: compute both maxima, then emit one line per
member in table order. -/
def display_type (members : List (String × Nat × String)) : List String :=
  members.map (type_line (longest_offset members) (longest_member members))

lemma foldl_max_init_le {α : Type} (f : α → Nat) :
    ∀ (l : List α) (acc : Nat), acc ≤ l.foldl (fun a y => max (f y) a) acc := by
  intro l
  induction l with
  | nil => intro acc; simp
  | cons b l ih =>
    intro acc
    rw [List.foldl_cons]
    exact le_trans (le_max_right _ _) (ih _)

lemma le_foldl_max {α : Type} (f : α → Nat) :
    ∀ (l : List α) (acc : Nat) (x : α), x ∈ l →
      f x ≤ l.foldl (fun a y => max (f y) a) acc := by
  intro l
  induction l with
  | nil => intro acc x hx; cases hx
  | cons a l ih =>
    intro acc x hx
    rw [List.foldl_cons]
    rcases List.mem_cons.mp hx with rfl | hx
    · exact le_trans (le_max_left _ _) (foldl_max_init_le f l _)
    · exact ih _ x hx

lemma le_longest_member (members : List (String × Nat × String))
    (m : String × Nat × String) (hm : m ∈ members) :
    m.1.length ≤ longest_member members :=
  le_foldl_max (fun m => m.1.length) members 0 m hm

lemma le_longest_offset (members : List (String × Nat × String))
    (m : String × Nat × String) (hm : m ∈ members) :
    (pyHex m.2.1).length ≤ longest_offset members :=
  le_foldl_max (fun m => (pyHex m.2.1).length) members 0 m hm

/-! ### Claim C9 -/

/-- Counterexample for C9: members `a` at offset `0x0` and `bb` at offset
`0x10`. The shorter hex offset is padded on the *left* (right-justified), so
the first line opens with spaces, not with the offset text a right-padded
offset column would put first. -/
theorem offset_column_left_pad_counterexample :
    display_type [("a", 0, "t"), ("bb", 16, "u")]
      = ["  0x0 \t\t a   \t\t t", " 0x10 \t\t bb  \t\t u"] ∧
    ("  0x0 \t\t a   \t\t t" : String).data.take 3 = [' ', ' ', '0'] ∧
    [' ', ' ', '0'] ≠ ("0x0" : String).data.take 3 := by
  decide

/-- Claim C9 as amended: `display_type` emits zero lines for zero members and
one line per member otherwise; the hex-offset column is left-padded
(right-justified) to the maximum hex-offset length and the name column
right-padded to the maximum name length, so every column starts at the same
character position on every line. -/
theorem display_type_alignment_amended (members : List (String × Nat × String)) :
    (display_type members).length = members.length ∧
    display_type members
      = members.map (type_line (longest_offset members) (longest_member members)) ∧
    ∀ m ∈ members,
      (spaces (longest_offset members - (pyHex m.2.1).length) ++ " " ++ pyHex m.2.1).length
          = longest_offset members + 1 ∧
      (m.1 ++ " " ++ spaces (longest_member members - m.1.length)).length
          = longest_member members + 1 ∧
      (type_line (longest_offset members) (longest_member members) m).length
          = longest_offset members + longest_member members + m.2.2.length + 10 := by
  refine ⟨by simp [display_type], rfl, ?_⟩
  intro m hm
  have ho := le_longest_offset members m hm
  have hn := le_longest_member members m hm
  have hsp : ∀ k, (spaces k).length = k := by
    intro k
    simp [spaces]
  refine ⟨?_, ?_, ?_⟩
  · simp only [String.length_append, hsp]
    have hone : (" " : String).length = 1 := rfl
    rw [hone]
    omega
  · simp only [String.length_append, hsp]
    have hone : (" " : String).length = 1 := rfl
    rw [hone]
    omega
  · simp only [type_line, String.length_append, hsp]
    have hone : (" " : String).length = 1 := rfl
    have htab : ("\t\t" : String).length = 2 := rfl
    rw [hone, htab]
    omega

/-- Witness for C9 amended: alignment of the `a` row in the two-member table. -/
theorem display_type_alignment_amended_witness :
    (spaces (longest_offset [("a", 0, "t"), ("bb", 16, "u")] - (pyHex 0).length)
        ++ " " ++ pyHex 0).length
      = longest_offset [("a", 0, "t"), ("bb", 16, "u")] + 1 ∧
    (("a" : String) ++ " "
        ++ spaces (longest_member [("a", 0, "t"), ("bb", 16, "u")] - ("a" : String).length)).length
      = longest_member [("a", 0, "t"), ("bb", 16, "u")] + 1 ∧
    (type_line (longest_offset [("a", 0, "t"), ("bb", 16, "u")])
        (longest_member [("a", 0, "t"), ("bb", 16, "u")]) ("a", 0, "t")).length
      = longest_offset [("a", 0, "t"), ("bb", 16, "u")]
          + longest_member [("a", 0, "t"), ("bb", 16, "u")] + ("t" : String).length + 10 :=
  (display_type_alignment_amended [("a", 0, "t"), ("bb", 16, "u")]).2.2
    ("a", 0, "t") (by decide)

end Volshell
